import Mathlib

/-!
Verification of the lock-coordination helpers of `arcor2_arserver/helpers.py`
(repository SimonKadnar/arcor2-compiler).

The file embeds, as executable Lean definitions:

* the helper functions that appear verbatim in the source
  (`make_name_unique`, `ctx_write_lock`, `ctx_read_lock`,
  `ensure_write_locked`, `ensure_read_locked`, `get_unlocked_objects`);
* the lock table (`glob.LOCK`), its operations (`write_lock`, `read_lock`,
  `write_unlock`, `read_unlock`, `is_write_locked`, `is_read_locked`) and
  the `retry` decorator, none of which ship with the sampled source; these
  are modelled from the specification (sections 3, 4.1 and 4.4), as marked
  in their doc comments.

Protected blocks of the scoped context managers are modelled by their
outcome (normal completion or a raised exception); the block itself does
not touch the lock table.
-/

/-- Lock mode: shared read or exclusive write (spec section 3). -/
inductive Mode where
  | read
  | write
deriving DecidableEq

/-- Modelled from the spec: a lock record (section 3, "Lock record").
`mode` is the record's mode, `holders` its set of owner ids, and
`treeRoot` the optional back-reference `(root id, owner)` noting that the
lock was acquired as part of a tree lock rooted at an ancestor, and by
whom.  Absence of a record for an id means the id is unlocked. -/
structure LockRecord where
  mode : Mode
  holders : Finset String
  treeRoot : Option (String × String)
deriving DecidableEq

/-- Modelled from the spec: the lock table (section 4.1), an association of
object ids to lock records.  The first matching entry is authoritative. -/
structure LockTable where
  recs : List (String × LockRecord)
deriving DecidableEq

/-- First record stored for `id`, if any. -/
def lookupRec : List (String × LockRecord) → String → Option LockRecord
  | [], _ => none
  | (i, r) :: rest, id => if i = id then some r else lookupRec rest id

/-- Remove every entry stored for `id`. -/
def eraseRec : List (String × LockRecord) → String → List (String × LockRecord)
  | [], _ => []
  | (i, r) :: rest, id =>
    if i = id then eraseRec rest id else (i, r) :: eraseRec rest id

/-- The record the table currently holds for `id` (`none` = unlocked). -/
def LockTable.find (t : LockTable) (id : String) : Option LockRecord :=
  lookupRec t.recs id

/-- Overwrite the record stored for `id`. -/
def LockTable.set (t : LockTable) (id : String) (r : LockRecord) : LockTable :=
  ⟨(id, r) :: eraseRec t.recs id⟩

/-- Delete the record stored for `id`. -/
def LockTable.del (t : LockTable) (id : String) : LockTable :=
  ⟨eraseRec t.recs id⟩

/-- Modelled from the spec: write-compatibility of one id (section 4.1,
`try_acquire`): `Write` is compatible only with no existing lock, or with
an existing `Read`/`Write` lock whose sole holder is the same owner
(re-entrant self-upgrade is allowed). -/
def writeCompat (t : LockTable) (id owner : String) : Bool :=
  match t.find id with
  | none => true
  | some r => decide (r.holders = {owner})

/-- Modelled from the spec: read-compatibility of one id (section 4.1,
`try_acquire`): `Read` is compatible with `Read` (any holder set) and with
no existing lock. -/
def readCompat (t : LockTable) (id : String) : Bool :=
  match t.find id with
  | none => true
  | some r => decide (r.mode = Mode.read)

/-- Modelled from the spec: apply a write hold on every id of the list
(section 4.1).  A granted write lock has the owner as sole holder and is
not a tree lock (the helpers request plain id-set locks). -/
def applyWriteAll (owner : String) : List String → LockTable → LockTable
  | [], t => t
  | id :: rest, t => applyWriteAll owner rest (t.set id ⟨Mode.write, {owner}, none⟩)

/-- Modelled from the spec: apply a read hold on one id (section 4.1): a
fresh record is created, or the owner joins the existing read record's
holder set. -/
def applyRead1 (owner : String) (t : LockTable) (id : String) : LockTable :=
  match t.find id with
  | none => t.set id ⟨Mode.read, {owner}, none⟩
  | some r => t.set id ⟨Mode.read, insert owner r.holders, r.treeRoot⟩

/-- Apply a read hold on every id of the list. -/
def applyReadAll (owner : String) : List String → LockTable → LockTable
  | [], t => t
  | id :: rest, t => applyReadAll owner rest (applyRead1 owner t id)

/-- Modelled from the spec: `glob.LOCK.write_lock` = `try_acquire` in write
mode (section 4.1): atomically check every id for compatibility; if and
only if all are compatible, apply all the holds (`some` result).  No
partial effects on failure (`none`). -/
def writeLock (objIds : List String) (owner : String) (t : LockTable) : Option LockTable :=
  if objIds.all (fun id => writeCompat t id owner) then
    some (applyWriteAll owner objIds t)
  else
    none

/-- Modelled from the spec: `glob.LOCK.read_lock` = `try_acquire` in read
mode (section 4.1). -/
def readLock (objIds : List String) (owner : String) (t : LockTable) : Option LockTable :=
  if objIds.all (fun id => readCompat t id) then
    some (applyReadAll owner objIds t)
  else
    none

/-- Modelled from the spec: `release` of one id (section 4.1): remove the
owner from the id's holder set for the matching mode; delete the record if
the holder set becomes empty.  Releasing a lock the owner does not hold is
a no-op, not an error. -/
def release1 (m : Mode) (owner : String) (t : LockTable) (id : String) : LockTable :=
  match t.find id with
  | none => t
  | some r =>
    if r.mode = m then
      if r.holders.erase owner = ∅ then t.del id
      else t.set id ⟨r.mode, r.holders.erase owner, r.treeRoot⟩
    else t

/-- Release a whole id list in one mode. -/
def releaseAll (m : Mode) (owner : String) : List String → LockTable → LockTable
  | [], t => t
  | id :: rest, t => releaseAll m owner rest (release1 m owner t id)

/-- Modelled from the spec: `glob.LOCK.write_unlock`. -/
def writeUnlock (objIds : List String) (owner : String) (t : LockTable) : LockTable :=
  releaseAll Mode.write owner objIds t

/-- Modelled from the spec: `glob.LOCK.read_unlock`. -/
def readUnlock (objIds : List String) (owner : String) (t : LockTable) : LockTable :=
  releaseAll Mode.read owner objIds t

/-- Modelled from the spec: `is_locked(id, owner, mode, include_tree)`
(section 4.1): true if the owner holds `mode` on `id` directly (a record
whose holder set contains the owner and that was not acquired as part of a
tree lock), or, when `include_tree`, via a tree lock covering `id` (the
record's back-reference names this owner). -/
def isLocked (t : LockTable) (id owner : String) (m : Mode) (includeTree : Bool) : Bool :=
  match t.find id with
  | none => false
  | some r =>
    decide (r.mode = m) &&
      ((decide (owner ∈ r.holders) && decide (r.treeRoot = none)) ||
        (includeTree &&
          match r.treeRoot with
          | some p => decide (p.2 = owner)
          | none => false))

/-- Modelled from the spec: `glob.LOCK.is_write_locked(obj_id, owner,
locked_tree)`; the two-argument call sites use `locked_tree = false`. -/
def isWriteLocked (t : LockTable) (objId owner : String) (lockedTree : Bool) : Bool :=
  isLocked t objId owner Mode.write lockedTree

/-- Modelled from the spec: `glob.LOCK.is_read_locked(obj_id, owner)`; the
source calls it with two arguments, so no tree flag is consulted. -/
def isReadLocked (t : LockTable) (objId owner : String) : Bool :=
  isLocked t objId owner Mode.read false

/-- Exceptions visible to the helpers.  `cannotLock` (`CannotLock`) and
`lockingException` (`LockingException`) live in the `Arcor2Exception`
hierarchy, as does any other `arcor2` error; `other` stands for an
exception outside that hierarchy (e.g. a `ValueError`). -/
inductive Exc where
  | cannotLock
  | lockingException (msg : String)
  | arcor2 (msg : String)
  | other (msg : String)
deriving DecidableEq

/-- Whether the exception is an `Arcor2Exception` (matched by the
`except Arcor2Exception` clause of the context managers). -/
def Exc.isArcor2 : Exc → Bool
  | .other _ => false
  | _ => true

/-- Outcome of the protected block run inside a scoped context manager. -/
inductive BlockOutcome where
  | normal
  | raises (e : Exc)

/-- Modelled from the spec: the `retry` decorator (section 4.4): attempt
the acquisition; on failure wait the configured delay and retry, up to the
configured maximum attempt count `tries`.  Returns the acquisition result
together with the number of attempts made and the number of delay periods
waited.  A failed attempt leaves the table unchanged, so every attempt
runs against the same table. -/
def retryAcq (step : LockTable → Option LockTable) :
    Nat → LockTable → Option LockTable × Nat × Nat
  | 0, _ => (none, 0, 0)
  | 1, t => (step t, 1, 0)
  | n + 2, t =>
    match step t with
    | some t1 => (some t1, 1, 0)
    | none =>
      let rest := retryAcq step (n + 1) t
      (rest.1, rest.2.1 + 1, rest.2.2 + 1)

deriving instance DecidableEq for Except

/-- What a run of a scoped context manager produces: the result seen by
the caller (`ok` or the propagated exception), the final lock table, and
the retry statistics of the acquisition. -/
structure CtxResult where
  result : Except Exc Unit
  table : LockTable
  attempts : Nat
  waits : Nat
deriving DecidableEq

/-- `ctx_write_lock(obj_ids, owner, auto_unlock, dry_run)` of
`helpers.py` (lines 31-49): acquire via the retried `write_lock`
(raising `CannotLock` on exhaustion), run the block; an
`Arcor2Exception` raised by the block triggers a `write_unlock` when
`not dry_run and not auto_unlock` and is re-raised; the `finally` clause
runs a `write_unlock` when `dry_run or auto_unlock`.  `tries` is
`glob.LOCK._lock_retries`; waits are counted in units of
`glob.LOCK._retry_wait`. -/
def ctxWriteLock (tries : Nat) (objIds : List String) (owner : String)
    (autoUnlock dryRun : Bool) (block : BlockOutcome) (t : LockTable) : CtxResult :=
  match retryAcq (writeLock objIds owner) tries t with
  | (none, a, w) => ⟨.error .cannotLock, t, a, w⟩
  | (some t1, a, w) =>
    match block with
    | .normal =>
      ⟨.ok (), if dryRun || autoUnlock then writeUnlock objIds owner t1 else t1, a, w⟩
    | .raises e =>
      let t2 := if e.isArcor2 && (!dryRun && !autoUnlock) then writeUnlock objIds owner t1 else t1
      let t3 := if dryRun || autoUnlock then writeUnlock objIds owner t2 else t2
      ⟨.error e, t3, a, w⟩

/-- `ctx_read_lock(obj_ids, owner, auto_unlock, dry_run)` of `helpers.py`
(lines 52-70), the read-mode twin of `ctxWriteLock`. -/
def ctxReadLock (tries : Nat) (objIds : List String) (owner : String)
    (autoUnlock dryRun : Bool) (block : BlockOutcome) (t : LockTable) : CtxResult :=
  match retryAcq (readLock objIds owner) tries t with
  | (none, a, w) => ⟨.error .cannotLock, t, a, w⟩
  | (some t1, a, w) =>
    match block with
    | .normal =>
      ⟨.ok (), if dryRun || autoUnlock then readUnlock objIds owner t1 else t1, a, w⟩
    | .raises e =>
      let t2 := if e.isArcor2 && (!dryRun && !autoUnlock) then readUnlock objIds owner t1 else t1
      let t3 := if dryRun || autoUnlock then readUnlock objIds owner t2 else t2
      ⟨.error e, t3, a, w⟩

/-- `ensure_write_locked(obj_id, owner, locked_tree)` of `helpers.py`
(lines 73-77): a pure query; raises `LockingException` when the check
fails. -/
def ensureWriteLocked (t : LockTable) (objId owner : String) (lockedTree : Bool) :
    Except Exc Unit :=
  if isWriteLocked t objId owner lockedTree then .ok ()
  else .error (.lockingException "Object is not write locked.")

/-- `ensure_read_locked(obj_id, owner, locked_tree)` of `helpers.py`
(lines 80-84).  Faithful to the source: the body calls
`glob.LOCK.is_read_locked(obj_id, owner)` without passing `locked_tree`,
so the parameter is accepted but never consulted, and the failure message
is the literal string of line 84. -/
def ensureReadLocked (t : LockTable) (objId owner : String) (lockedTree : Bool) :
    Except Exc Unit :=
  if isReadLocked t objId owner then .ok ()
  else .error (.lockingException "Object is not write locked.")

/-- The `Union[str, List[str]]` argument of `get_unlocked_objects`. -/
def idsToList : String ⊕ List String → List String
  | .inl s => [s]
  | .inr l => l

/-- `get_unlocked_objects(obj_ids, owner)` of `helpers.py` (lines 87-96):
a single id is wrapped into a one-element list, then the ids whose
`is_write_locked(obj_id, owner)` check is false are kept. -/
def getUnlockedObjects (objIds : String ⊕ List String) (owner : String)
    (t : LockTable) : List String :=
  (idsToList objIds).filter (fun id => !isWriteLocked t id owner false)

/-- The candidate names tried by `make_name_unique`: the original name,
then `orig_1`, `orig_2`, ... (`f"\x7borig_name\x7d_\x7bcnt\x7d"`). -/
def cand (orig : String) : Nat → String
  | 0 => orig
  | k + 1 => orig ++ "_" ++ Nat.repr (k + 1)

/-- The while loop of `make_name_unique` (lines 24-26), fuelled: at
counter `cnt`, while the current name is taken, move to the candidate for
`cnt` and increment.  The fuel bound is proved never to run out when the
initial fuel exceeds the number of existing names. -/
def muGo (orig : String) (names : Finset String) : Nat → Nat → String → String
  | 0, _, name => name
  | fuel + 1, cnt, name =>
    if name ∈ names then muGo orig names fuel (cnt + 1) (cand orig cnt) else name

/-- `make_name_unique(orig_name, names)` of `helpers.py` (lines 19-28). -/
def makeNameUnique (orig : String) (names : Finset String) : String :=
  muGo orig names (names.card + 1) 1 orig

/-- Does the owner hold no lock of any mode on `id`? -/
def ownerFree (t : LockTable) (id owner : String) : Bool :=
  match t.find id with
  | none => true
  | some r => decide (owner ∉ r.holders)

/-- Does the owner appear among the holders of an `m`-mode record on
`id`? -/
def holdsMode (t : LockTable) (id owner : String) (m : Mode) : Bool :=
  match t.find id with
  | none => false
  | some r => decide (r.mode = m ∧ owner ∈ r.holders)

/-! ### Table lemmas -/

theorem lookupRec_eraseRec_self (l : List (String × LockRecord)) (id : String) :
    lookupRec (eraseRec l id) id = none := by
  induction l with
  | nil => rfl
  | cons p rest ih =>
    by_cases h : p.1 = id
    · simp [eraseRec, h, ih]
    · simp [eraseRec, h, lookupRec, ih]

theorem lookupRec_eraseRec_ne (l : List (String × LockRecord)) (id j : String)
    (h : j ≠ id) : lookupRec (eraseRec l id) j = lookupRec l j := by
  have hij : id ≠ j := Ne.symm h
  induction l with
  | nil => rfl
  | cons p rest ih =>
    by_cases hp : p.1 = id
    · have hpj : p.1 ≠ j := by rw [hp]; exact hij
      simp [eraseRec, hp, lookupRec, hpj, hij, ih]
    · by_cases hpj : p.1 = j
      · simp [eraseRec, hp, lookupRec, hpj, h, ih]
      · simp [eraseRec, hp, lookupRec, hpj, ih]

theorem find_set_self (t : LockTable) (id : String) (r : LockRecord) :
    (t.set id r).find id = some r := by
  simp [LockTable.set, LockTable.find, lookupRec]

theorem find_set_ne (t : LockTable) (id j : String) (r : LockRecord) (h : j ≠ id) :
    (t.set id r).find j = t.find j := by
  have hij : id ≠ j := fun hc => h hc.symm
  simp [LockTable.set, LockTable.find, lookupRec, hij, lookupRec_eraseRec_ne t.recs id j h]

theorem find_del_self (t : LockTable) (id : String) :
    (t.del id).find id = none := by
  simp [LockTable.del, LockTable.find, lookupRec_eraseRec_self]

theorem find_del_ne (t : LockTable) (id j : String) (h : j ≠ id) :
    (t.del id).find j = t.find j := by
  simp [LockTable.del, LockTable.find, lookupRec_eraseRec_ne t.recs id j h]

/-! ### Write acquisition lemmas -/

theorem applyWriteAll_find_not_mem (owner : String) (ids : List String) (t : LockTable)
    (id : String) (h : id ∉ ids) : (applyWriteAll owner ids t).find id = t.find id := by
  induction ids generalizing t with
  | nil => rfl
  | cons a rest ih =>
    have ha : id ≠ a := fun hc => h (hc ▸ List.mem_cons_self a rest)
    have hr : id ∉ rest := fun hc => h (List.mem_cons_of_mem a hc)
    simp [applyWriteAll, ih _ hr, find_set_ne _ _ _ _ ha]

theorem applyWriteAll_find_mem (owner : String) (ids : List String) (t : LockTable)
    (id : String) (h : id ∈ ids) :
    (applyWriteAll owner ids t).find id = some ⟨Mode.write, {owner}, none⟩ := by
  induction ids generalizing t with
  | nil => cases h
  | cons a rest ih =>
    by_cases hr : id ∈ rest
    · simp [applyWriteAll, ih _ hr]
    · have ha : id = a := by
        rcases List.mem_cons.mp h with h1 | h1
        · exact h1
        · exact absurd h1 hr
      subst ha
      simp [applyWriteAll, applyWriteAll_find_not_mem owner rest _ id hr, find_set_self]

theorem writeLock_find (ids : List String) (owner : String) (t u : LockTable)
    (h : writeLock ids owner t = some u) (id : String) (hid : id ∈ ids) :
    u.find id = some ⟨Mode.write, {owner}, none⟩ := by
  unfold writeLock at h
  by_cases hc : ids.all (fun id => writeCompat t id owner)
  · simp [hc] at h
    exact h ▸ applyWriteAll_find_mem owner ids t id hid
  · simp [hc] at h

/-! ### Read acquisition lemmas -/

theorem applyRead1_find_self (owner : String) (t : LockTable) (id : String) :
    ∃ r, (applyRead1 owner t id).find id = some r ∧
      r.mode = Mode.read ∧ owner ∈ r.holders := by
  unfold applyRead1
  cases h : t.find id with
  | none =>
    exact ⟨⟨Mode.read, {owner}, none⟩, by simp [find_set_self], rfl, Finset.mem_singleton_self owner⟩
  | some r =>
    exact ⟨⟨Mode.read, insert owner r.holders, r.treeRoot⟩, by simp [find_set_self], rfl,
      Finset.mem_insert_self owner r.holders⟩

theorem applyRead1_find_ne (owner : String) (t : LockTable) (id j : String) (h : j ≠ id) :
    (applyRead1 owner t id).find j = t.find j := by
  unfold applyRead1
  cases ht : t.find id with
  | none => simp [find_set_ne _ _ _ _ h]
  | some r => simp [find_set_ne _ _ _ _ h]

theorem applyReadAll_find_not_mem (owner : String) (ids : List String) (t : LockTable)
    (id : String) (h : id ∉ ids) : (applyReadAll owner ids t).find id = t.find id := by
  induction ids generalizing t with
  | nil => rfl
  | cons a rest ih =>
    have ha : id ≠ a := fun hc => h (hc ▸ List.mem_cons_self a rest)
    have hr : id ∉ rest := fun hc => h (List.mem_cons_of_mem a hc)
    simp [applyReadAll, ih _ hr, applyRead1_find_ne owner t a id ha]

theorem applyReadAll_find_mem (owner : String) (ids : List String) (t : LockTable)
    (id : String) (h : id ∈ ids) :
    ∃ r, (applyReadAll owner ids t).find id = some r ∧
      r.mode = Mode.read ∧ owner ∈ r.holders := by
  induction ids generalizing t with
  | nil => cases h
  | cons a rest ih =>
    by_cases hr : id ∈ rest
    · exact ih _ hr
    · have ha : id = a := by
        rcases List.mem_cons.mp h with h1 | h1
        · exact h1
        · exact absurd h1 hr
      subst ha
      obtain ⟨r, hfind, hm, ho⟩ := applyRead1_find_self owner t id
      exact ⟨r, by simp [applyReadAll, applyReadAll_find_not_mem owner rest _ id hr, hfind],
        hm, ho⟩

theorem readLock_find (ids : List String) (owner : String) (t u : LockTable)
    (h : readLock ids owner t = some u) (id : String) (hid : id ∈ ids) :
    ∃ r, u.find id = some r ∧ r.mode = Mode.read ∧ owner ∈ r.holders := by
  unfold readLock at h
  by_cases hc : ids.all (fun id => readCompat t id)
  · simp [hc] at h
    exact h ▸ applyReadAll_find_mem owner ids t id hid
  · simp [hc] at h

/-! ### Release lemmas -/

theorem release1_find_ne (m : Mode) (owner : String) (t : LockTable) (id j : String)
    (h : j ≠ id) : (release1 m owner t id).find j = t.find j := by
  unfold release1
  cases ht : t.find id with
  | none => rfl
  | some r =>
    by_cases hm : r.mode = m
    · by_cases he : r.holders.erase owner = ∅
      · simp [hm, he, find_del_ne _ _ _ h]
      · simp [hm, he, find_set_ne _ _ _ _ h]
    · simp [hm]

theorem release1_ownerFree_self (m : Mode) (owner : String) (t : LockTable) (id : String)
    (hm : ∀ r, t.find id = some r → r.mode = m) :
    ownerFree (release1 m owner t id) id owner = true := by
  unfold release1 ownerFree
  cases ht : t.find id with
  | none => simp [ht]
  | some r =>
    have hrm : r.mode = m := hm r ht
    by_cases he : r.holders.erase owner = ∅
    · simp [ht, hrm, he, find_del_self]
    · simp [ht, hrm, he, find_set_self, Finset.not_mem_erase]

theorem release1_preserves_ownerFree (m : Mode) (owner : String) (t : LockTable)
    (id j : String) (h : ownerFree t j owner = true) :
    ownerFree (release1 m owner t id) j owner = true := by
  by_cases hj : j = id
  · subst hj
    unfold release1
    cases ht : t.find j with
    | none => simp [ownerFree, ht]
    | some r =>
      by_cases hm : r.mode = m
      · by_cases he : r.holders.erase owner = ∅
        · simp [ownerFree, hm, he, find_del_self]
        · simp [ownerFree, hm, he, find_set_self, Finset.not_mem_erase]
      · simpa [ownerFree, hm, ht] using h
  · unfold ownerFree
    rw [release1_find_ne m owner t id j hj]
    simpa [ownerFree] using h

theorem releaseAll_preserves_ownerFree (m : Mode) (owner : String) (ids : List String)
    (t : LockTable) (j : String) (h : ownerFree t j owner = true) :
    ownerFree (releaseAll m owner ids t) j owner = true := by
  induction ids generalizing t with
  | nil => exact h
  | cons a rest ih => exact ih _ (release1_preserves_ownerFree m owner t a j h)

theorem releaseAll_ownerFree (m : Mode) (owner : String) (ids : List String) (t : LockTable)
    (hinv : ∀ id ∈ ids, (∀ r, t.find id = some r → r.mode = m) ∨ ownerFree t id owner = true) :
    ∀ id ∈ ids, ownerFree (releaseAll m owner ids t) id owner = true := by
  induction ids generalizing t with
  | nil => intro id h; cases h
  | cons a rest ih =>
    intro id hid
    have hfree_a : ownerFree (release1 m owner t a) a owner = true := by
      rcases hinv a (List.mem_cons_self a rest) with h1 | h1
      · exact release1_ownerFree_self m owner t a h1
      · exact release1_preserves_ownerFree m owner t a a h1
    have hinv1 : ∀ i ∈ rest,
        (∀ r, (release1 m owner t a).find i = some r → r.mode = m) ∨
          ownerFree (release1 m owner t a) i owner = true := by
      intro i hi
      by_cases hia : i = a
      · exact Or.inr (hia ▸ hfree_a)
      · rcases hinv i (List.mem_cons_of_mem a hi) with h1 | h1
        · exact Or.inl (by rw [release1_find_ne m owner t a i hia]; exact h1)
        · exact Or.inr (release1_preserves_ownerFree m owner t a i h1)
    rcases List.mem_cons.mp hid with h1 | h1
    · subst h1
      by_cases hir : id ∈ rest
      · exact ih _ hinv1 id hir
      · exact releaseAll_preserves_ownerFree m owner rest _ id hfree_a
    · exact ih _ hinv1 id h1

/-! ### Retry lemmas -/

theorem retryAcq_success (step : LockTable → Option LockTable) (tries : Nat) (t u : LockTable)
    (htries : 1 ≤ tries) (h : step t = some u) :
    retryAcq step tries t = (some u, 1, 0) := by
  match tries, htries with
  | 1, _ => simp [retryAcq, h]
  | n + 2, _ => simp [retryAcq, h]

theorem retryAcq_fail (step : LockTable → Option LockTable) (tries : Nat) (t : LockTable)
    (htries : 1 ≤ tries) (h : step t = none) :
    retryAcq step tries t = (none, tries, tries - 1) := by
  induction tries with
  | zero => cases htries
  | succ n ih =>
    match n with
    | 0 => simp [retryAcq, h]
    | m + 1 =>
      have hrec := ih (Nat.succ_le_succ (Nat.zero_le m))
      simp [retryAcq, h, hrec]

/-! ### Claim theorems -/

/-- Claim C1: for every id set, owner and protected block, scoped
acquisition via `ctx_write_lock` or `ctx_read_lock` with
`auto_unlock = true` and `dry_run = false` releases the acquired lock
after the block finishes, both on normal completion and on any raised
exception, leaving zero residual locks held by that owner for those ids.
The hypotheses state that the acquisition itself succeeded (otherwise the
protected block never runs). -/
theorem C1_auto_unlock_zero_residual (tries : Nat) (ids : List String)
    (owner : String) (block : BlockOutcome) (t tw tr : LockTable)
    (htries : 1 ≤ tries)
    (hw : writeLock ids owner t = some tw)
    (hr : readLock ids owner t = some tr) :
    (∀ id ∈ ids,
      ownerFree (ctxWriteLock tries ids owner true false block t).table id owner = true) ∧
    (∀ id ∈ ids,
      ownerFree (ctxReadLock tries ids owner true false block t).table id owner = true) := by
  constructor
  · have htab : (ctxWriteLock tries ids owner true false block t).table
        = writeUnlock ids owner tw := by
      cases block with
      | normal => simp [ctxWriteLock, retryAcq_success _ _ _ _ htries hw]
      | raises e => simp [ctxWriteLock, retryAcq_success _ _ _ _ htries hw]
    rw [htab]
    exact releaseAll_ownerFree Mode.write owner ids tw
      (fun i hi => Or.inl (fun r hrr => by
        rw [writeLock_find ids owner t tw hw i hi] at hrr
        cases hrr; rfl))
  · have htab : (ctxReadLock tries ids owner true false block t).table
        = readUnlock ids owner tr := by
      cases block with
      | normal => simp [ctxReadLock, retryAcq_success _ _ _ _ htries hr]
      | raises e => simp [ctxReadLock, retryAcq_success _ _ _ _ htries hr]
    rw [htab]
    exact releaseAll_ownerFree Mode.read owner ids tr
      (fun i hi => Or.inl (fun r hrr => by
        obtain ⟨r0, hfind, hm, _⟩ := readLock_find ids owner t tr hr i hi
        rw [hfind] at hrr
        cases hrr; exact hm))

/-- Witness for C1 at a concrete input: one id, empty initial table. -/
theorem C1_witness :
    ownerFree (ctxWriteLock 1 ["A"] "alice" true false BlockOutcome.normal ⟨[]⟩).table
      "A" "alice" = true ∧
    ownerFree (ctxReadLock 1 ["A"] "alice" true false BlockOutcome.normal ⟨[]⟩).table
      "A" "alice" = true := by
  have h := C1_auto_unlock_zero_residual 1 ["A"] "alice" BlockOutcome.normal ⟨[]⟩
    ⟨[("A", ⟨Mode.write, {"alice"}, none⟩)]⟩ ⟨[("A", ⟨Mode.read, {"alice"}, none⟩)]⟩
    (by decide) (by decide) (by decide)
  exact ⟨h.1 "A" (by simp), h.2 "A" (by simp)⟩

/-- Counterexample to claim C2 as stated: with `auto_unlock = false` and
`dry_run = false`, a block that raises an exception outside the
`Arcor2Exception` hierarchy (here a `ValueError`-like error) is re-raised
with the write lock still held, so the lock is NOT released on every
error exit path. -/
theorem C2_counterexample :
    (ctxWriteLock 1 ["A"] "alice" false false
        (BlockOutcome.raises (Exc.other "ValueError")) ⟨[]⟩).result
      = Except.error (Exc.other "ValueError") ∧
    (ctxWriteLock 1 ["A"] "alice" false false
        (BlockOutcome.raises (Exc.other "ValueError")) ⟨[]⟩).table.find "A"
      = some ⟨Mode.write, {"alice"}, none⟩ := by decide

/-- Claim C2 as amended: with `auto_unlock = false` and `dry_run = false`,
the lock is left held after normal completion; it is released when the
block raises an `Arcor2Exception` (the family matched by the
`except Arcor2Exception` clause); an exception outside that family
propagates with the lock still held. -/
theorem C2_no_auto_unlock_release_policy (tries : Nat) (ids : List String)
    (owner : String) (t tw tr : LockTable)
    (htries : 1 ≤ tries)
    (hw : writeLock ids owner t = some tw)
    (hr : readLock ids owner t = some tr) :
    ((∀ id ∈ ids,
        holdsMode (ctxWriteLock tries ids owner false false BlockOutcome.normal t).table
          id owner Mode.write = true) ∧
      (∀ e, e.isArcor2 = true → ∀ id ∈ ids,
        ownerFree (ctxWriteLock tries ids owner false false (BlockOutcome.raises e) t).table
          id owner = true) ∧
      (∀ e, e.isArcor2 = false → ∀ id ∈ ids,
        holdsMode (ctxWriteLock tries ids owner false false (BlockOutcome.raises e) t).table
          id owner Mode.write = true)) ∧
    ((∀ id ∈ ids,
        holdsMode (ctxReadLock tries ids owner false false BlockOutcome.normal t).table
          id owner Mode.read = true) ∧
      (∀ e, e.isArcor2 = true → ∀ id ∈ ids,
        ownerFree (ctxReadLock tries ids owner false false (BlockOutcome.raises e) t).table
          id owner = true) ∧
      (∀ e, e.isArcor2 = false → ∀ id ∈ ids,
        holdsMode (ctxReadLock tries ids owner false false (BlockOutcome.raises e) t).table
          id owner Mode.read = true)) := by
  refine ⟨⟨?_, ?_, ?_⟩, ⟨?_, ?_, ?_⟩⟩
  · intro id hid
    have htab : (ctxWriteLock tries ids owner false false BlockOutcome.normal t).table = tw := by
      simp [ctxWriteLock, retryAcq_success _ _ _ _ htries hw]
    rw [htab]
    simp [holdsMode, writeLock_find ids owner t tw hw id hid]
  · intro e he id hid
    have htab : (ctxWriteLock tries ids owner false false (BlockOutcome.raises e) t).table
        = writeUnlock ids owner tw := by
      simp [ctxWriteLock, retryAcq_success _ _ _ _ htries hw, he]
    rw [htab]
    exact releaseAll_ownerFree Mode.write owner ids tw
      (fun i hi => Or.inl (fun r hrr => by
        rw [writeLock_find ids owner t tw hw i hi] at hrr
        cases hrr; rfl)) id hid
  · intro e he id hid
    have htab : (ctxWriteLock tries ids owner false false (BlockOutcome.raises e) t).table
        = tw := by
      simp [ctxWriteLock, retryAcq_success _ _ _ _ htries hw, he]
    rw [htab]
    simp [holdsMode, writeLock_find ids owner t tw hw id hid]
  · intro id hid
    have htab : (ctxReadLock tries ids owner false false BlockOutcome.normal t).table = tr := by
      simp [ctxReadLock, retryAcq_success _ _ _ _ htries hr]
    rw [htab]
    obtain ⟨r0, hfind, hm, ho⟩ := readLock_find ids owner t tr hr id hid
    simp [holdsMode, hfind, hm, ho]
  · intro e he id hid
    have htab : (ctxReadLock tries ids owner false false (BlockOutcome.raises e) t).table
        = readUnlock ids owner tr := by
      simp [ctxReadLock, retryAcq_success _ _ _ _ htries hr, he]
    rw [htab]
    exact releaseAll_ownerFree Mode.read owner ids tr
      (fun i hi => Or.inl (fun r hrr => by
        obtain ⟨r0, hfind, hm, _⟩ := readLock_find ids owner t tr hr i hi
        rw [hfind] at hrr
        cases hrr; exact hm)) id hid
  · intro e he id hid
    have htab : (ctxReadLock tries ids owner false false (BlockOutcome.raises e) t).table
        = tr := by
      simp [ctxReadLock, retryAcq_success _ _ _ _ htries hr, he]
    rw [htab]
    obtain ⟨r0, hfind, hm, ho⟩ := readLock_find ids owner t tr hr id hid
    simp [holdsMode, hfind, hm, ho]

/-- Witness for the amended C2 at a concrete input. -/
theorem C2_witness :
    holdsMode (ctxWriteLock 1 ["A"] "alice" false false BlockOutcome.normal ⟨[]⟩).table
      "A" "alice" Mode.write = true ∧
    ownerFree (ctxReadLock 1 ["A"] "alice" false false
        (BlockOutcome.raises (Exc.arcor2 "boom")) ⟨[]⟩).table "A" "alice" = true := by
  have h := C2_no_auto_unlock_release_policy 1 ["A"] "alice" ⟨[]⟩
    ⟨[("A", ⟨Mode.write, {"alice"}, none⟩)]⟩ ⟨[("A", ⟨Mode.read, {"alice"}, none⟩)]⟩
    (by decide) (by decide) (by decide)
  exact ⟨h.1.1 "A" (by simp), h.2.2.1 (Exc.arcor2 "boom") (by decide) "A" (by simp)⟩

/-- Counterexample to claim C3 as stated: when the owner already holds a
write lock on the id before entry, a `dry_run` scoped write lock
re-enters (the spec's `try_acquire` allows a write over a lock whose sole
holder is the same owner) and the final release deletes the record, so
the owner's hold after the block (none) does not equal its hold before
entry (a write lock): the table's state for the id is not restored. -/
theorem C3_counterexample :
    holdsMode (⟨[("A", ⟨Mode.write, {"alice"}, none⟩)]⟩ : LockTable)
      "A" "alice" Mode.write = true ∧
    (ctxWriteLock 1 ["A"] "alice" false true BlockOutcome.normal
        ⟨[("A", ⟨Mode.write, {"alice"}, none⟩)]⟩).result = Except.ok () ∧
    (ctxWriteLock 1 ["A"] "alice" false true BlockOutcome.normal
        ⟨[("A", ⟨Mode.write, {"alice"}, none⟩)]⟩).table.find "A" = none := by decide

/-- Claim C3 as amended: with `dry_run = true` the acquired lock is
released on every exit path regardless of `auto_unlock`, so whenever the
owner held no lock on the given ids before entry, it holds none after the
scoped block on every exit path (acquisition failure included); a
pre-existing hold of the owner on one of the ids, however, is subsumed by
the re-entrant acquisition and lost. -/
theorem C3_dry_run_releases (tries : Nat) (ids : List String) (owner : String)
    (autoUnlock : Bool) (block : BlockOutcome) (t : LockTable)
    (htries : 1 ≤ tries)
    (hfree : ∀ id ∈ ids, ownerFree t id owner = true) :
    (∀ id ∈ ids,
      ownerFree (ctxWriteLock tries ids owner autoUnlock true block t).table id owner = true) ∧
    (∀ id ∈ ids,
      ownerFree (ctxReadLock tries ids owner autoUnlock true block t).table id owner = true) := by
  constructor
  · cases hw : writeLock ids owner t with
    | none =>
      have htab : (ctxWriteLock tries ids owner autoUnlock true block t).table = t := by
        simp [ctxWriteLock, retryAcq_fail _ _ _ htries hw]
      rw [htab]; exact hfree
    | some tw =>
      have htab : (ctxWriteLock tries ids owner autoUnlock true block t).table
          = writeUnlock ids owner tw := by
        cases block with
        | normal => simp [ctxWriteLock, retryAcq_success _ _ _ _ htries hw]
        | raises e => simp [ctxWriteLock, retryAcq_success _ _ _ _ htries hw]
      rw [htab]
      exact releaseAll_ownerFree Mode.write owner ids tw
        (fun i hi => Or.inl (fun r hrr => by
          rw [writeLock_find ids owner t tw hw i hi] at hrr
          cases hrr; rfl))
  · cases hr : readLock ids owner t with
    | none =>
      have htab : (ctxReadLock tries ids owner autoUnlock true block t).table = t := by
        simp [ctxReadLock, retryAcq_fail _ _ _ htries hr]
      rw [htab]; exact hfree
    | some tr =>
      have htab : (ctxReadLock tries ids owner autoUnlock true block t).table
          = readUnlock ids owner tr := by
        cases block with
        | normal => simp [ctxReadLock, retryAcq_success _ _ _ _ htries hr]
        | raises e => simp [ctxReadLock, retryAcq_success _ _ _ _ htries hr]
      rw [htab]
      exact releaseAll_ownerFree Mode.read owner ids tr
        (fun i hi => Or.inl (fun r hrr => by
          obtain ⟨r0, hfind, hm, _⟩ := readLock_find ids owner t tr hr i hi
          rw [hfind] at hrr
          cases hrr; exact hm))

/-- Witness for the amended C3 at a concrete input: the id is read-locked
by somebody else, the owner holds nothing on it before or after the
dry-run block. -/
theorem C3_witness :
    ownerFree (ctxWriteLock 2 ["A"] "alice" false true
        (BlockOutcome.raises (Exc.other "oops"))
        ⟨[("A", ⟨Mode.read, {"bob"}, none⟩)]⟩).table "A" "alice" = true ∧
    ownerFree (ctxReadLock 2 ["A"] "alice" false true
        (BlockOutcome.raises (Exc.other "oops"))
        ⟨[("A", ⟨Mode.read, {"bob"}, none⟩)]⟩).table "A" "alice" = true := by
  have h := C3_dry_run_releases 2 ["A"] "alice" false
    (BlockOutcome.raises (Exc.other "oops")) ⟨[("A", ⟨Mode.read, {"bob"}, none⟩)]⟩
    (by decide) (by decide)
  exact ⟨h.1 "A" (by simp), h.2 "A" (by simp)⟩

/-- Claim C4: whatever exception the protected block raises, and whatever
the policy flags are, `ctx_write_lock` and `ctx_read_lock` re-raise that
same exception unchanged to the caller (they never swallow it and never
replace it); the hypotheses state that the acquisition succeeded, so that
the block actually ran. -/
theorem C4_reraises_unchanged (tries : Nat) (ids : List String) (owner : String)
    (autoUnlock dryRun : Bool) (e : Exc) (t tw tr : LockTable)
    (htries : 1 ≤ tries)
    (hw : writeLock ids owner t = some tw)
    (hr : readLock ids owner t = some tr) :
    (ctxWriteLock tries ids owner autoUnlock dryRun (BlockOutcome.raises e) t).result
      = Except.error e ∧
    (ctxReadLock tries ids owner autoUnlock dryRun (BlockOutcome.raises e) t).result
      = Except.error e := by
  constructor
  · simp [ctxWriteLock, retryAcq_success _ _ _ _ htries hw]
  · simp [ctxReadLock, retryAcq_success _ _ _ _ htries hr]

/-- Witness for C4 at a concrete input. -/
theorem C4_witness :
    (ctxWriteLock 1 ["A"] "alice" true false
        (BlockOutcome.raises (Exc.lockingException "later failure")) ⟨[]⟩).result
      = Except.error (Exc.lockingException "later failure") ∧
    (ctxReadLock 1 ["A"] "alice" true false
        (BlockOutcome.raises (Exc.lockingException "later failure")) ⟨[]⟩).result
      = Except.error (Exc.lockingException "later failure") :=
  C4_reraises_unchanged 1 ["A"] "alice" true false
    (Exc.lockingException "later failure") ⟨[]⟩
    ⟨[("A", ⟨Mode.write, {"alice"}, none⟩)]⟩ ⟨[("A", ⟨Mode.read, {"alice"}, none⟩)]⟩
    (by decide) (by decide) (by decide)

/-- Claim C5: when the underlying acquisition always fails (a failed
attempt leaves the table unchanged, so failing on the entry table means
failing on every attempt), entering `ctx_write_lock` or `ctx_read_lock`
attempts the acquisition exactly `tries` times (`glob.LOCK._lock_retries`),
waits the configured delay between consecutive attempts (`tries - 1`
delay periods), then signals the distinct `CannotLock` condition with the
lock table unchanged. -/
theorem C5_bounded_retry_exhaustion (tries : Nat) (ids : List String) (owner : String)
    (autoUnlock dryRun : Bool) (block : BlockOutcome) (t : LockTable)
    (htries : 1 ≤ tries)
    (hw : writeLock ids owner t = none)
    (hr : readLock ids owner t = none) :
    ctxWriteLock tries ids owner autoUnlock dryRun block t
      = ⟨Except.error Exc.cannotLock, t, tries, tries - 1⟩ ∧
    ctxReadLock tries ids owner autoUnlock dryRun block t
      = ⟨Except.error Exc.cannotLock, t, tries, tries - 1⟩ := by
  constructor
  · simp [ctxWriteLock, retryAcq_fail _ _ _ htries hw]
  · simp [ctxReadLock, retryAcq_fail _ _ _ htries hr]

/-- Witness for C5 at a concrete input: `max_attempts = 3` against an id
write-locked by a different owner fails after exactly 3 attempts and 2
waits, with the table unchanged. -/
theorem C5_witness :
    ctxWriteLock 3 ["B"] "alice" true false BlockOutcome.normal
        ⟨[("B", ⟨Mode.write, {"bob"}, none⟩)]⟩
      = ⟨Except.error Exc.cannotLock, ⟨[("B", ⟨Mode.write, {"bob"}, none⟩)]⟩, 3, 2⟩ ∧
    ctxReadLock 3 ["B"] "alice" true false BlockOutcome.normal
        ⟨[("B", ⟨Mode.write, {"bob"}, none⟩)]⟩
      = ⟨Except.error Exc.cannotLock, ⟨[("B", ⟨Mode.write, {"bob"}, none⟩)]⟩, 3, 2⟩ :=
  C5_bounded_retry_exhaustion 3 ["B"] "alice" true false BlockOutcome.normal
    ⟨[("B", ⟨Mode.write, {"bob"}, none⟩)]⟩ (by decide) (by decide) (by decide)

/-- Characterization of the modelled `is_locked` check: it succeeds
exactly on a direct hold, or, when the tree flag is passed, on a covering
tree lock naming the owner. -/
theorem isLocked_iff (t : LockTable) (id owner : String) (m : Mode) (it : Bool) :
    isLocked t id owner m it = true ↔
      ((∃ r, t.find id = some r ∧ r.mode = m ∧ owner ∈ r.holders ∧ r.treeRoot = none) ∨
        (it = true ∧
          ∃ r root, t.find id = some r ∧ r.mode = m ∧ r.treeRoot = some (root, owner))) := by
  unfold isLocked
  cases hf : t.find id with
  | none => simp
  | some r =>
    cases htr : r.treeRoot with
    | none =>
      simp [htr]
    | some p =>
      obtain ⟨a, b⟩ := p
      simp [htr, Prod.mk.injEq]
      tauto

/-- Claim C6: `ensure_write_locked(obj_id, owner, locked_tree)` returns
normally if and only if the owner holds a write lock on the id directly
or, when `locked_tree = true`, via a tree lock covering the id naming
that owner; in every other case it returns the `LockingException`
precondition-violation error (its code path is a pure query: no retry
loop and no table mutation occur). -/
theorem C6_ensure_write_locked_iff (t : LockTable) (id owner : String) (lockedTree : Bool) :
    (ensureWriteLocked t id owner lockedTree = Except.ok () ↔
      ((∃ r, t.find id = some r ∧ r.mode = Mode.write ∧ owner ∈ r.holders ∧ r.treeRoot = none) ∨
        (lockedTree = true ∧
          ∃ r root, t.find id = some r ∧ r.mode = Mode.write ∧
            r.treeRoot = some (root, owner)))) ∧
    (ensureWriteLocked t id owner lockedTree = Except.ok () ∨
      ensureWriteLocked t id owner lockedTree
        = Except.error (Exc.lockingException "Object is not write locked.")) := by
  have hiff := isLocked_iff t id owner Mode.write lockedTree
  by_cases hb : isWriteLocked t id owner lockedTree = true
  · have hok : ensureWriteLocked t id owner lockedTree = Except.ok () := by
      simp [ensureWriteLocked, hb]
    exact ⟨⟨fun _ => hiff.mp hb, fun _ => hok⟩, Or.inl hok⟩
  · have herr : ensureWriteLocked t id owner lockedTree
        = Except.error (Exc.lockingException "Object is not write locked.") := by
      simp [ensureWriteLocked, hb]
    refine ⟨⟨fun hc => ?_, fun hc => absurd (hiff.mpr hc) hb⟩, Or.inr herr⟩
    rw [herr] at hc
    cases hc

/-- Witness for C6 at concrete inputs: a direct write hold passes the
check, and a tree-covered id passes it when `locked_tree = true`. -/
theorem C6_witness :
    ensureWriteLocked ⟨[("A", ⟨Mode.write, {"alice"}, none⟩)]⟩ "A" "alice" false
      = Except.ok () ∧
    ensureWriteLocked ⟨[("child", ⟨Mode.write, {"alice"}, some ("root", "alice")⟩)]⟩
      "child" "alice" true = Except.ok () :=
  ⟨(C6_ensure_write_locked_iff ⟨[("A", ⟨Mode.write, {"alice"}, none⟩)]⟩ "A" "alice" false).1.mpr
      (Or.inl ⟨⟨Mode.write, {"alice"}, none⟩, by decide, rfl, by decide, rfl⟩),
    (C6_ensure_write_locked_iff ⟨[("child", ⟨Mode.write, {"alice"}, some ("root", "alice")⟩)]⟩
        "child" "alice" true).1.mpr
      (Or.inr ⟨rfl, ⟨Mode.write, {"alice"}, some ("root", "alice")⟩, "root", by decide, rfl,
        rfl⟩)⟩

/-- Claim C7: whenever the read-lock check fails, `ensure_read_locked`
raises a `LockingException` whose message is exactly
"Object is not write locked." — the very same wording the failing
`ensure_write_locked` assertion uses. -/
theorem C7_read_failure_message (t : LockTable) (id owner : String) (lt ltw : Bool)
    (hfail : isReadLocked t id owner = false)
    (hfailw : isWriteLocked t id owner ltw = false) :
    ensureReadLocked t id owner lt
        = Except.error (Exc.lockingException "Object is not write locked.") ∧
    ensureWriteLocked t id owner ltw
        = Except.error (Exc.lockingException "Object is not write locked.") := by
  constructor
  · simp [ensureReadLocked, hfail]
  · simp [ensureWriteLocked, hfailw]

/-- Witness for C7 at a concrete input: the empty table fails both
checks with the identical message. -/
theorem C7_witness :
    ensureReadLocked ⟨[]⟩ "A" "alice" false
        = Except.error (Exc.lockingException "Object is not write locked.") ∧
    ensureWriteLocked ⟨[]⟩ "A" "alice" false
        = Except.error (Exc.lockingException "Object is not write locked.") :=
  C7_read_failure_message ⟨[]⟩ "A" "alice" false false (by decide) (by decide)

/-- Counterexample to claim C8 as stated: for ids `{A, B, C}` with `B`
write-locked by a different owner (`bob`) and `A`, `C` free,
`get_unlocked_objects` for owner `alice` returns all three ids — `B` is
included although it is write-locked by someone other than `alice`, so
the result is not the claimed `{A, C}`. -/
theorem C8_counterexample :
    getUnlockedObjects (Sum.inr ["A", "B", "C"]) "alice"
        ⟨[("B", ⟨Mode.write, {"bob"}, none⟩)]⟩ = ["A", "B", "C"] ∧
    "B" ∈ getUnlockedObjects (Sum.inr ["A", "B", "C"]) "alice"
        ⟨[("B", ⟨Mode.write, {"bob"}, none⟩)]⟩ ∧
    isWriteLocked ⟨[("B", ⟨Mode.write, {"bob"}, none⟩)]⟩ "B" "bob" false = true := by decide

/-- Claim C8 as amended: `get_unlocked_objects` returns exactly the
subset of the given ids on which the given owner itself holds no direct
write lock; ids that are free and ids write-locked by other owners are
included, ids write-locked by the owner itself are excluded. -/
theorem C8_unlocked_objects_membership (objIds : String ⊕ List String) (owner : String)
    (t : LockTable) (id : String) :
    id ∈ getUnlockedObjects objIds owner t ↔
      (id ∈ idsToList objIds ∧
        ¬ ∃ r, t.find id = some r ∧ r.mode = Mode.write ∧ owner ∈ r.holders ∧
          r.treeRoot = none) := by
  unfold getUnlockedObjects
  rw [List.mem_filter]
  have hiff := isLocked_iff t id owner Mode.write false
  have hcomp : (!isWriteLocked t id owner false) = true ↔
      ¬ ∃ r, t.find id = some r ∧ r.mode = Mode.write ∧ owner ∈ r.holders ∧
        r.treeRoot = none := by
    rw [Bool.not_eq_true']
    constructor
    · intro hb hc
      have hT : isWriteLocked t id owner false = true := hiff.mpr (Or.inl hc)
      rw [hb] at hT
      cases hT
    · intro hno
      cases hb : isWriteLocked t id owner false with
      | false => rfl
      | true =>
        rcases hiff.mp hb with hc | ⟨hT, _⟩
        · exact absurd hc hno
        · cases hT
    
  exact and_congr Iff.rfl hcomp

/-- Witness for the amended C8 at a concrete input: an id write-locked by
another owner is a member of the result. -/
theorem C8_witness :
    "B" ∈ getUnlockedObjects (Sum.inr ["A", "B", "C"]) "alice"
      ⟨[("B", ⟨Mode.write, {"bob"}, none⟩)]⟩ :=
  (C8_unlocked_objects_membership (Sum.inr ["A", "B", "C"]) "alice"
      ⟨[("B", ⟨Mode.write, {"bob"}, none⟩)]⟩ "B").mpr
    ⟨by decide, fun hc => by
      obtain ⟨r, hr, _, how, htr⟩ := hc
      have hrB : r = ⟨Mode.write, {"bob"}, none⟩ := by
        have hfind : (⟨[("B", ⟨Mode.write, {"bob"}, none⟩)]⟩ : LockTable).find "B"
            = some ⟨Mode.write, {"bob"}, none⟩ := by decide
        rw [hfind] at hr
        cases hr
        rfl
      subst hrB
      revert how
      decide⟩

/-- Claim C9 is right and the code is wrong: `ensure_read_locked` accepts
a `locked_tree` parameter but its body calls
`glob.LOCK.is_read_locked(obj_id, owner)` without passing it, so an id
covered by a tree read lock held by the owner (here: record with
back-reference `("root", "alice")`) is rejected with a `LockingException`
even though `locked_tree = true` and the tree-aware check (second
conjunct) accepts it. -/
theorem C9_locked_tree_ignored :
    ensureReadLocked ⟨[("child", ⟨Mode.read, {"alice"}, some ("root", "alice")⟩)]⟩
        "child" "alice" true
      = Except.error (Exc.lockingException "Object is not write locked.") ∧
    isLocked ⟨[("child", ⟨Mode.read, {"alice"}, some ("root", "alice")⟩)]⟩
        "child" "alice" Mode.read true = true := by decide

/-! ### Decimal representation: evaluation round trip -/

/-- Numeric value of a decimal digit character. -/
def digitVal (c : Char) : Nat := c.toNat - 48

/-- Evaluate a digit string, most significant first, starting from an
accumulator. -/
def accVal : List Char → Nat → Nat
  | [], a => a
  | c :: cs, a => accVal cs (10 * a + digitVal c)

theorem digitVal_digitChar (k : Nat) (h : k < 10) :
    digitVal (Nat.digitChar k) = k := by
  interval_cases k <;> rfl

theorem accVal_toDigitsCore (fuel : Nat) :
    ∀ (n : Nat) (ds : List Char), n < fuel →
      accVal (Nat.toDigitsCore 10 fuel n ds) 0 = accVal ds n := by
  induction fuel with
  | zero => intro n ds h; omega
  | succ f ih =>
    intro n ds h
    by_cases hdiv : n / 10 = 0
    · simp [Nat.toDigitsCore, hdiv, accVal]
      rw [digitVal_digitChar (n % 10) (Nat.mod_lt n (by decide))]
      congr 1
      omega
    · simp [Nat.toDigitsCore, hdiv]
      rw [ih (n / 10) (Nat.digitChar (n % 10) :: ds) (by omega)]
      show accVal ds (10 * (n / 10) + digitVal (Nat.digitChar (n % 10))) = accVal ds n
      rw [digitVal_digitChar (n % 10) (Nat.mod_lt n (by decide))]
      congr 1
      omega

theorem accVal_repr (n : Nat) : accVal (Nat.repr n).data 0 = n := by
  have h := accVal_toDigitsCore (n + 1) n [] (Nat.lt_succ_self n)
  simpa [Nat.repr, Nat.toDigits, List.asString, accVal] using h

theorem repr_data_inj (a b : Nat) (h : (Nat.repr a).data = (Nat.repr b).data) : a = b := by
  have ha := accVal_repr a
  rw [h, accVal_repr b] at ha
  exact ha.symm

/-! ### Candidate names of the renaming loop -/

theorem cand_inj (orig : String) (i j : Nat) (h : cand orig i = cand orig j) : i = j := by
  have hdata := congrArg String.data h
  match i, j with
  | 0, 0 => rfl
  | 0, j + 1 =>
    exfalso
    have hlen := congrArg List.length hdata
    simp [cand, String.data_append] at hlen
  | i + 1, 0 =>
    exfalso
    have hlen := congrArg List.length hdata
    simp [cand, String.data_append] at hlen
  | i + 1, j + 1 =>
    have hd2 : orig.data ++ ('_' :: (Nat.repr (i + 1)).data)
        = orig.data ++ ('_' :: (Nat.repr (j + 1)).data) := by
      simpa [cand, String.data_append] using hdata
    have htail := List.append_cancel_left hd2
    have hrepr : (Nat.repr (i + 1)).data = (Nat.repr (j + 1)).data :=
      List.tail_eq_of_cons_eq htail
    have := repr_data_inj (i + 1) (j + 1) hrepr
    omega

theorem exists_cand_not_mem (orig : String) (names : Finset String) :
    ∃ i, i ≤ names.card ∧ cand orig i ∉ names := by
  by_contra hc
  push_neg at hc
  have hmap : ∀ i ∈ Finset.range (names.card + 1), cand orig i ∈ names := by
    intro i hi
    exact hc i (Nat.lt_succ_iff.mp (Finset.mem_range.mp hi))
  have hinj : Set.InjOn (cand orig) (Finset.range (names.card + 1)) := by
    intro a _ b _ hab
    exact cand_inj orig a b hab
  have hcard := Finset.card_le_card_of_injOn (cand orig) hmap hinj
  simp [Finset.card_range] at hcard

theorem muGo_not_mem (orig : String) (names : Finset String) :
    ∀ fuel k, (∃ i, k ≤ i ∧ i < k + fuel ∧ cand orig i ∉ names) →
      muGo orig names fuel (k + 1) (cand orig k) ∉ names := by
  intro fuel
  induction fuel with
  | zero =>
    rintro k ⟨i, h1, h2, _⟩
    omega
  | succ f ih =>
    rintro k ⟨i, h1, h2, h3⟩
    by_cases hk : cand orig k ∈ names
    · simp only [muGo, hk, if_true]
      apply ih (k + 1)
      have hik : i ≠ k := fun he => h3 (he ▸ hk)
      exact ⟨i, by omega, by omega, h3⟩
    · simp [muGo, hk]

/-- Claim C10: `make_name_unique` terminates (its loop needs at most
`names.card + 1` iterations, the fuel the embedding provides, and the
result below being fresh shows the fuel never runs out) and returns a
name not in the given set; when the original name is not in the set it is
returned unchanged. -/
theorem C10_make_name_unique (orig : String) (names : Finset String) :
    makeNameUnique orig names ∉ names ∧
      (orig ∉ names → makeNameUnique orig names = orig) := by
  constructor
  · obtain ⟨i, h1, h2⟩ := exists_cand_not_mem orig names
    exact muGo_not_mem orig names (names.card + 1) 0 ⟨i, Nat.zero_le i, by omega, h2⟩
  · intro h
    unfold makeNameUnique
    simp only [muGo, h, if_false]

/-- Witness for C10 at concrete inputs: with `obj` and `obj_1` taken, the
loop produces a fresh name; a fresh original is returned unchanged. -/
theorem C10_witness :
    makeNameUnique "obj" {"obj", "obj_1"} ∉ ({"obj", "obj_1"} : Finset String) ∧
    makeNameUnique "new" {"obj"} = "new" :=
  ⟨(C10_make_name_unique "obj" {"obj", "obj_1"}).1,
    (C10_make_name_unique "new" {"obj"}).2 (by decide)⟩
